import Mathlib

/-!
Verification development for the gonfork HTTP traffic duplicator
(package `nfork`).  The Go sources under `src/nfork` are shallowly
embedded: Go maps become association lists over `String` keys, pointers
to `StatsRecorder` objects become numeric identifiers allocated from a
counter that is threaded through the operations, mutation of a receiver
becomes explicit state passing, and functions that can fail return the
new state together with an optional error message.
-/

namespace Nfork

/-- Association-list embedding of a Go `map[string]V`: lookup of a key.
Go map lookup `m[k]` returns the first (unique) binding. -/
def mapFind (m : List (String × α)) (k : String) : Option α :=
  match m with
  | [] => none
  | (k', v) :: rest => if k' = k then some v else mapFind rest k

/-- Go `_, ok := m[k]` membership test. -/
def mapHas (m : List (String × α)) (k : String) : Bool :=
  match m with
  | [] => false
  | (k', _) :: rest => k' = k || mapHas rest k

/-- Go map assignment `m[k] = v`: replaces the binding when the key is
present, otherwise appends a new binding. -/
def mapSet (m : List (String × α)) (k : String) (v : α) : List (String × α) :=
  match m with
  | [] => [(k, v)]
  | (k', v') :: rest => if k' = k then (k, v) :: rest else (k', v') :: mapSet rest k v

/-- Go `delete(m, k)`. -/
def mapDel (m : List (String × α)) (k : String) : List (String × α) :=
  match m with
  | [] => []
  | (k', v') :: rest => if k' = k then rest else (k', v') :: mapDel rest k

/-- Go `len(m)`. -/
def mapLen (m : List (String × α)) : Nat := m.length

theorem mapHas_iff_mem (m : List (String × α)) (k : String) :
    mapHas m k = true ↔ k ∈ m.map Prod.fst := by
  induction m with
  | nil => simp [mapHas]
  | cons hd tl ih =>
    obtain ⟨k', v⟩ := hd
    simp only [mapHas, List.map_cons, List.mem_cons, Bool.or_eq_true,
      decide_eq_true_eq, ih]
    constructor
    · rintro (h | h)
      · exact Or.inl h.symm
      · exact Or.inr h
    · rintro (h | h)
      · exact Or.inl h.symm
      · exact Or.inr h

theorem mapHas_eq_false_of_not_mem (m : List (String × α)) (k : String)
    (h : k ∉ m.map Prod.fst) : mapHas m k = false := by
  have := (mapHas_iff_mem m k).not.mpr h
  simpa using this

theorem mapHas_set (m : List (String × α)) (k x : String) (v : α) :
    mapHas (mapSet m k v) x = (k = x || mapHas m x) := by
  induction m with
  | nil => simp [mapSet, mapHas]
  | cons hd tl ih =>
    obtain ⟨k', v'⟩ := hd
    by_cases h : k' = k
    · subst h
      simp only [mapSet, if_pos rfl, mapHas]
      by_cases hx : k' = x <;> simp [hx]
    · simp only [mapSet, if_neg h, mapHas, ih]
      by_cases hx : k' = x <;> by_cases hk : k = x <;> simp [hx, hk]

/-- Keys with no duplicates: the invariant Go maps satisfy and all our
map operations preserve. -/
def mapNodup (m : List (String × α)) : Prop := (m.map Prod.fst).Nodup

theorem mapHas_del_of_nodup (m : List (String × α)) (k x : String)
    (hnd : mapNodup m) :
    mapHas (mapDel m k) x = (mapHas m x && !(k = x : Bool)) := by
  induction m with
  | nil => simp [mapDel, mapHas]
  | cons hd tl ih =>
    obtain ⟨k', v'⟩ := hd
    have hnd' : mapNodup tl := (List.nodup_cons.mp hnd).2
    have hknot : k' ∉ tl.map Prod.fst := (List.nodup_cons.mp hnd).1
    by_cases h : k' = k
    · subst h
      simp only [mapDel, if_pos rfl, mapHas]
      by_cases hx : k' = x
      · subst hx
        simp [mapHas_eq_false_of_not_mem tl k' hknot]
      · simp [hx]
    · simp only [mapDel, if_neg h, mapHas, ih hnd']
      by_cases hx : k' = x
      · subst hx
        have : ¬(k = k') := fun hk => h hk.symm
        simp [this]
      · simp [hx]

theorem mapFind_set_self (m : List (String × α)) (k : String) (v : α) :
    mapFind (mapSet m k v) k = some v := by
  induction m with
  | nil => simp [mapSet, mapFind]
  | cons hd tl ih =>
    obtain ⟨k', v'⟩ := hd
    by_cases h : k' = k <;> simp [mapSet, mapFind, h, ih]

theorem mapFind_set_other (m : List (String × α)) (k x : String) (v : α)
    (hne : k ≠ x) : mapFind (mapSet m k v) x = mapFind m x := by
  induction m with
  | nil => simp [mapSet, mapFind, hne]
  | cons hd tl ih =>
    obtain ⟨k', v'⟩ := hd
    by_cases h : k' = k
    · subst h
      simp [mapSet, mapFind, hne, ih]
    · simp only [mapSet, if_neg h, mapFind, ih]

/-! Section: The Inbound data model (src/nfork/inbound.go)

`StatsRecorder` pointers are embedded as numeric identifiers; every Go
`new(StatsRecorder)` allocation takes the next identifier from a counter
that the operations thread through explicitly.  The `sync.Once`
`initialize` guard becomes the boolean field `initialized` (false in any
freshly constructed struct, exactly as the Go zero value). -/

/-- Embedding of Go `http.Client` restricted to the fields `inbound.go`
touches: the client timeout and the transport's idle-connection cap
(`none` until `httpTransport` installs one). -/
structure HTTPClient where
  timeout : Int
  transportIdle : Option Int
  deriving Repr, DecidableEq

/-- Constant `DefaultInboundTimeout = 1 * time.Second` in nanoseconds
(Go `time.Duration` is a signed 64-bit count of nanoseconds). -/
def DefaultInboundTimeout : Int := 1000000000

/-- Go `http.StatusServiceUnavailable`. -/
def StatusServiceUnavailable : Nat := 503

/-- Go `http.DefaultMaxIdleConnsPerHost`. -/
def DefaultMaxIdleConnsPerHost : Int := 2

/-- Embedding of the `Inbound` struct.  `Timeout` is in nanoseconds,
`stats` maps outbound names to recorder identifiers, and `initialized`
embeds the consumed/unconsumed state of the `sync.Once` guard. -/
structure Inbound where
  Name : String
  Listen : String
  Outbound : List (String × String)
  Active : String
  Timeout : Int
  TimeoutCode : Nat
  Client : Option HTTPClient
  IdleConnections : Int
  initialized : Bool
  stats : List (String × Nat)
  deriving Repr, DecidableEq

/-- Embedding of `Inbound.Copy`: a fresh struct holding the same scalar fields, with
the `Outbound` and `stats` maps rebuilt entry by entry (the recorder
identifiers are shared) and the once-guard back at its zero value. -/
def Inbound.copy (inbound : Inbound) : Inbound :=
  { Name := inbound.Name
    Listen := inbound.Listen
    Active := inbound.Active
    Outbound := inbound.Outbound.map (fun e => (e.1, e.2))
    Timeout := inbound.Timeout
    TimeoutCode := inbound.TimeoutCode
    IdleConnections := inbound.IdleConnections
    Client := inbound.Client
    initialized := false
    stats := inbound.stats.map (fun e => (e.1, e.2)) }

/-- Embedding of `Inbound.Validate`: returns the (possibly name-defaulted) receiver
and an optional error, in the exact order of the Go checks. -/
def Inbound.validate (inbound : Inbound) : Inbound × Option String :=
  let inbound :=
    if inbound.Name.length = 0 then { inbound with Name := inbound.Listen } else inbound
  if inbound.Listen.length = 0 then
    (inbound, some "missing listen host")
  else if mapLen inbound.Outbound = 0 then
    (inbound, some "no outbound")
  else if inbound.Active.length = 0 then
    (inbound, some "no active outbound")
  else if !(mapHas inbound.Outbound inbound.Active) then
    (inbound, some "active outbound does not exist")
  else
    (inbound, none)

/-- Embedding of `Inbound.AddOutbound`: always succeeds; allocates one fresh
`StatsRecorder` (identifier `c`). -/
def Inbound.addOutbound (inbound : Inbound) (c : Nat) (outbound addr : String) :
    Inbound × Nat × Option String :=
  ({ inbound with
      Outbound := mapSet inbound.Outbound outbound addr
      stats := mapSet inbound.stats outbound c }, c + 1, none)

/-- Embedding of `Inbound.RemoveOutbound`: fails (receiver untouched) when the name
is unknown or active; otherwise deletes the entry from both maps.  The
last component lists the recorder identifiers the call closed — the Go
code calls `Close` on none of them. -/
def Inbound.removeOutbound (inbound : Inbound) (outbound : String) :
    Inbound × Option String × List Nat :=
  if !(mapHas inbound.Outbound outbound) then
    (inbound, some "unknown outbound", [])
  else if outbound = inbound.Active then
    (inbound, some "cannot remove active outbound", [])
  else
    ({ inbound with
        Outbound := mapDel inbound.Outbound outbound
        stats := mapDel inbound.stats outbound }, none, [])

/-- Embedding of `Inbound.ActivateOutbound`. -/
def Inbound.activateOutbound (inbound : Inbound) (outbound : String) :
    Inbound × Option String :=
  if !(mapHas inbound.Outbound outbound) then
    (inbound, some "unknown outbound")
  else
    ({ inbound with Active := outbound }, none)

/-- The `for outbound := range inbound.Outbound` loop at the end of
`Inbound.init`: installs a freshly allocated recorder for every key of
the `Outbound` map (one admissible Go map iteration order). -/
def installRecorders (stats : List (String × Nat)) :
    List (String × String) → Nat → List (String × Nat) × Nat
  | [], c => (stats, c)
  | (k, _) :: rest, c => installRecorders (mapSet stats k c) rest (c + 1)

/-- Embedding of `Inbound.init` (the body the `sync.Once` runs): field defaulting,
client/transport setup, and the recorder-installation loop. -/
def Inbound.initBody (inbound : Inbound) (c : Nat) : Inbound × Nat :=
  let timeout := if inbound.Timeout = 0 then DefaultInboundTimeout else inbound.Timeout
  let timeoutCode :=
    if inbound.TimeoutCode = 0 then StatusServiceUnavailable else inbound.TimeoutCode
  let client := (inbound.Client).getD { timeout := 0, transportIdle := none }
  let (client, idle) :=
    if inbound.IdleConnections > 0 then
      ({ client with transportIdle := some inbound.IdleConnections },
        inbound.IdleConnections)
    else
      (client, DefaultMaxIdleConnsPerHost)
  let client := if client.timeout = 0 then { client with timeout := timeout } else client
  let (stats, c) := installRecorders inbound.stats inbound.Outbound c
  ({ inbound with
      Timeout := timeout
      TimeoutCode := timeoutCode
      Client := some client
      IdleConnections := idle
      stats := stats }, c)

/-- Embedding of `Inbound.Init`: runs `init` only when the once-guard has not fired
yet, and consumes the guard. -/
def Inbound.initOnce (inbound : Inbound) (c : Nat) : Inbound × Nat :=
  if inbound.initialized then (inbound, c)
  else Inbound.initBody { inbound with initialized := true } c

/-! Section: ServeHTTP control flow (src/nfork/inbound.go, ServeHTTP / record)

Network effects are outside the embedding; what is embedded is the
decision `ServeHTTP` reaches after the body buffering: respond 400 on a
body-read failure, `log.Panicf` when the scan of the outbound map left
`activeHost` empty, or forward to the active host (all non-active
outbounds having been dispatched on background goroutines). -/

inductive ServeStep where
  /-- body read failed: `http.Error(writer, ..., 400)`. -/
  | badRequest : ServeStep
  /-- Outcome embedding `log.Panicf` on a missing active host. -/
  | panicNoActive : ServeStep
  /-- the synchronous `forward` to the active outbound's host. -/
  | forwardActive (host : String) : ServeStep
  deriving Repr, DecidableEq

/-- The `ServeHTTP` body after `Init`: the range loop leaves
`activeHost` at the Go zero value `""` unless some key equals `Active`,
in which case it is that key's address (map keys are unique). -/
def Inbound.serveDispatch (inbound : Inbound) (bodyOk : Bool) : ServeStep :=
  if !bodyOk then ServeStep.badRequest
  else
    let activeHost := (mapFind inbound.Outbound inbound.Active).getD ""
    if activeHost.length = 0 then ServeStep.panicNoActive
    else ServeStep.forwardActive activeHost

/-- Embedding of `ServeHTTP` including the leading `inbound.Init()` call. -/
def Inbound.serveHTTP (inbound : Inbound) (c : Nat) (bodyOk : Bool) :
    Inbound × Nat × ServeStep :=
  let (inbound, c) := inbound.initOnce c
  (inbound, c, inbound.serveDispatch bodyOk)

/-- Embedding of `Inbound.record`: `none` embeds the `log.Panicf` branch taken when
the outbound has no recorder in the stats map. -/
def Inbound.record (inbound : Inbound) (outbound : String) : Option Unit :=
  if mapHas inbound.stats outbound then some () else none

/-! Section: InboundServer (src/nfork/inbound_server.go)

The atomically published `*Inbound` is the single field; an atomic swap
is embedding-level assignment.  Listener and goroutines are outside the
model. -/

structure InboundServer where
  inbound : Inbound
  deriving Repr, DecidableEq

/-- Embedding of `InboundServer.AddOutbound`: copy, mutate, publish on success. -/
def InboundServer.addOutbound (server : InboundServer) (c : Nat) (outbound addr : String) :
    InboundServer × Nat × Option String :=
  match (server.inbound.copy).addOutbound c outbound addr with
  | (inbound, c', none) => ({ inbound := inbound }, c', none)
  | (_, c', some e) => (server, c', some e)

/-- Embedding of `InboundServer.RemoveOutbound`: copy, mutate, publish on success. -/
def InboundServer.removeOutbound (server : InboundServer) (outbound : String) :
    InboundServer × Option String :=
  match (server.inbound.copy).removeOutbound outbound with
  | (inbound, none, _) => ({ inbound := inbound }, none)
  | (_, some e, _) => (server, some e)

/-- Embedding of `InboundServer.ActivateOutbound`: copy, mutate, publish on success. -/
def InboundServer.activateOutbound (server : InboundServer) (outbound : String) :
    InboundServer × Option String :=
  match (server.inbound.copy).activateOutbound outbound with
  | (inbound, none) => ({ inbound := inbound }, none)
  | (_, some e) => (server, some e)

/-! Section: Distribution (src/nfork/distribution.go)

Values are `uint64` latencies; all arithmetic on them stays within
`Nat`.  `Count` is a `uint64` counter, so the increment wraps at
`2 ^ 64`.  The random draw `rand.Int63n(int64(dist.Count))` (note: the
package-level RNG, not `dist.Rand`) is embedded as the oracle argument
`j`, constrained to `j < Count` where a theorem needs it. -/

/-- Constant `DefaultDistributionSize = 1000`. -/
def DefaultDistributionSize : Nat := 1000

/-- The `Distribution` struct.  `Items = none` embeds a nil slice (the
`Rand` field is never consulted by `Sample`, which draws from the
package-level RNG, so it is omitted). -/
structure Distribution where
  Items : Option (List Nat)
  Count : Nat
  max : Nat
  deriving Repr, DecidableEq

/-- Embedding of `Distribution.init`: installs the default reservoir when the slice
is nil. -/
def Distribution.initD (dist : Distribution) : Distribution :=
  match dist.Items with
  | none => { dist with Items := some (List.replicate DefaultDistributionSize 0) }
  | some _ => dist

/-- Embedding of `Distribution.Sample` with the random draw passed as the oracle `j`. -/
def Distribution.sample (dist : Distribution) (value : Nat) (j : Nat) : Distribution :=
  let dist := dist.initD
  let items := dist.Items.getD []
  let mx := if value > dist.max then value else dist.max
  let c := (dist.Count + 1) % 2 ^ 64
  if c < items.length then
    { Items := some (items.set c value), Count := c, max := mx }
  else if j < items.length then
    { Items := some (items.set j value), Count := c, max := mx }
  else
    { Items := some items, Count := c, max := mx }

/-! Section: IEEE-754 binary32 arithmetic used by Percentiles

`Percentiles` indexes the sorted reservoir with
`int(float32(n)/100*float32(p))`.  Every value arising there is a
positive normal float, so each `float32` operation is: form the exact
rational result, then round the significand to 24 bits, to nearest,
ties to even.  The model keeps every intermediate float exactly, as a
dyadic pair (mantissa, binary exponent), and works entirely in integer
arithmetic so that concrete instances evaluate inside the kernel; the
rounding-error analysis interprets the pairs in `ℚ` via `dyadVal`. -/

/-- Round-to-nearest (ties to even) of the ratio `a / b` for `b > 0`. -/
def rneDiv (a b : Nat) : Nat :=
  let q := a / b
  let r := a % b
  if 2 * r < b then q
  else if b < 2 * r then q + 1
  else if q % 2 = 0 then q else q + 1

/-- Largest `e ≤ fuel` with `b * 2 ^ e ≤ a` (0 when none). -/
def findEUp (a b : Nat) : Nat → Nat
  | 0 => 0
  | f + 1 => if b * 2 ^ (f + 1) ≤ a then f + 1 else findEUp a b f

/-- Smallest `k ≥ start` with `b ≤ a * 2 ^ k`, scanning upward with
fuel. -/
def findK (a b : Nat) : Nat → Nat → Nat
  | 0, start => start
  | f + 1, start => if b ≤ a * 2 ^ start then start else findK a b f (start + 1)

/-- Binary exponent `⌊log₂ (a / b)⌋` for positive `a / b` within
`[2 ^ (-200), 2 ^ 200]`. -/
def floorLog2 (a b : Nat) : Int :=
  if b ≤ a then (findEUp a b 200 : Int) else -(findK a b 200 1 : Int)

/-- Rounding of the positive rational `a / b` to a `float32`, returned
as an exact dyadic pair: 24-bit mantissa and binary exponent. -/
def roundM (a b : Nat) : Nat × Int :=
  let e := floorLog2 a b
  let s := e - 23
  if 0 ≤ s then (rneDiv a (b * 2 ^ s.toNat), s)
  else (rneDiv (a * 2 ^ (-s).toNat) b, s)

/-- Value of a dyadic pair in `ℚ` (for the error analysis only). -/
def dyadVal (x : Nat × Int) : ℚ := (x.1 : ℚ) * 2 ^ x.2

/-- Exact representation of a dyadic pair as a ratio of naturals. -/
def dyadRatio (x : Nat × Int) : Nat × Nat :=
  if 0 ≤ x.2 then (x.1 * 2 ^ x.2.toNat, 1) else (x.1, 2 ^ (-x.2).toNat)

/-- Go `int(x)` for a nonnegative dyadic `x`: truncation = floor. -/
def dyadFloor (x : Nat × Int) : Nat :=
  if 0 ≤ x.2 then x.1 * 2 ^ x.2.toNat else x.1 / 2 ^ (-x.2).toNat

/-- The index expression `int(float32(n)/100*float32(p))` from
`Percentiles`: round `n` to `float32`, divide by 100 (exact, then
round), multiply by the rounding of `p` (exact, then round), truncate. -/
def f32idx (n p : Nat) : Nat :=
  let x1 := roundM n 1
  let r1 := dyadRatio x1
  let x2 := roundM r1.1 (r1.2 * 100)
  let r2 := dyadRatio x2
  let xp := roundM p 1
  let rp := dyadRatio xp
  let x3 := roundM (r2.1 * rp.1) (r2.2 * rp.2)
  dyadFloor x3

/-- Insertion of a value into a sorted list: the ascending reordering
produced by `sort.Sort(sampleArray(items))` (the sorted sequence of a
multiset of integers is unique, so any sorting algorithm yields it). -/
def insertSorted (x : Nat) : List Nat → List Nat
  | [] => [x]
  | y :: ys => if x ≤ y then x :: y :: ys else y :: insertSorted x ys

/-- Ascending sort of the copied prefix. -/
def sortNat (l : List Nat) : List Nat := l.foldr insertSorted []

/-- Go conversion `int(u)` of a `uint64` on a 64-bit platform:
reinterpret modulo `2 ^ 64` as a signed value. -/
def int64ofUInt64 (u : Nat) : Int :=
  if u % 2 ^ 64 < 2 ^ 63 then ((u % 2 ^ 64 : Nat) : Int)
  else ((u % 2 ^ 64 : Nat) : Int) - 2 ^ 64

/-- Embedding of `Distribution.Percentiles`.  Result `none` embeds a panic: a negative
`make` length (`int(dist.Count)` negative) or an out-of-range index
(`items[...]` with `Count = 0` but a nonempty reservoir slice). -/
def Distribution.percentiles (dist : Distribution) :
    Option (Nat × Nat × Nat × Nat) :=
  let items0 := dist.Items.getD []
  if items0.length = 0 then some (0, 0, 0, 0)
  else
    let nInt : Int := int64ofUInt64 dist.Count
    let nInt : Int := if nInt > (items0.length : Int) then (items0.length : Int) else nInt
    if nInt < 0 then none
    else
      let n := nInt.toNat
      let items := sortNat (items0.take n)
      match items.get? (f32idx n 50), items.get? (f32idx n 90), items.get? (f32idx n 99) with
      | some a, some b, some c => some (a, b, c, dist.max)
      | _, _, _ => none

/-! Section: Go time.ParseDuration (external stdlib dependency)

Modelled from the Go standard library: an optional sign, the special
case "0", an error on the empty remainder, then one or more
digits-then-unit groups.  Fractional components ("1.5s") and overflow
checks are not modelled; none of the repository's descriptors or claims
involve them, and the behaviour the claims turn on — the empty string is
rejected with an error — happens before the group loop. -/

/-- Units accepted by `time.ParseDuration`, in nanoseconds. -/
def unitMap : List (String × Nat) :=
  [("ns", 1), ("us", 1000), ("µs", 1000), ("μs", 1000),
   ("ms", 1000000), ("s", 1000000000), ("m", 60000000000),
   ("h", 3600000000000)]

/-- Consumption of a maximal run of decimal digits: value, number of
digits consumed, rest (Go `leadingInt`). -/
def leadingIntAux (v k : Nat) : List Char → Nat × Nat × List Char
  | [] => (v, k, [])
  | ch :: rest =>
    if ch.isDigit then leadingIntAux (v * 10 + (ch.toNat - 48)) (k + 1) rest
    else (v, k, ch :: rest)

/-- Consumption of the unit name: everything up to the next digit or
dot. -/
def leadingUnit : List Char → String × List Char
  | [] => ("", [])
  | ch :: rest =>
    if ch.isDigit || ch = '.' then ("", ch :: rest)
    else
      let (u, r) := leadingUnit rest
      (String.mk (ch :: u.data), r)

/-- Repeated digits-unit groups; the fuel bounds the recursion and is
never exhausted because each round consumes at least one character. -/
def parseDurationLoop : Nat → List Char → Except String Int
  | 0, _ => Except.error "time: invalid duration"
  | _, [] => Except.ok 0
  | fuel + 1, s =>
    let (v, k, s1) := leadingIntAux 0 0 s
    if k = 0 then Except.error "time: invalid duration"
    else
      let (u, s2) := leadingUnit s1
      match mapFind unitMap u with
      | none => Except.error "time: unknown unit in duration"
      | some unit =>
        match parseDurationLoop fuel s2 with
        | Except.ok d => Except.ok ((v : Int) * (unit : Int) + d)
        | Except.error e => Except.error e

/-- Entry point of the `time.ParseDuration` model. -/
def parseDuration (s : String) : Except String Int :=
  let (neg, t) :=
    match s.data with
    | c :: rest =>
      if c = '-' then (true, rest)
      else if c = '+' then (false, rest)
      else (false, s.data)
    | [] => (false, [])
  if t = ['0'] then Except.ok 0
  else if t = [] then Except.error "time: invalid duration"
  else
    match parseDurationLoop (t.length + 1) t with
    | Except.ok d => Except.ok (if neg then -d else d)
    | Except.error e => Except.error e

/-! Section: Inbound JSON descriptor (src/nfork/inbound.go, UnmarshalJSON)

JSON text parsing itself is the external `encoding/json` collaborator;
the embedding starts at the intermediate `inboundJSON` struct it fills.
A field absent from the descriptor leaves the Go zero value, so an
absent "timeout" is the empty string. -/

structure InboundJSON where
  name : String
  listen : String
  out : List (String × String)
  active : String
  timeout : String
  timeoutCode : Nat
  idleConn : Int
  deriving Repr, DecidableEq

/-- The field assignments of `Inbound.UnmarshalJSON`, including the
unconditional `time.ParseDuration` call on the timeout string. -/
def Inbound.unmarshalJSON (j : InboundJSON) : Except String Inbound :=
  match parseDuration j.timeout with
  | Except.error e => Except.error e
  | Except.ok t =>
    Except.ok
      { Name := j.name
        Listen := j.listen
        Outbound := j.out
        Active := j.active
        Timeout := t
        TimeoutCode := j.timeoutCode
        Client := none
        IdleConnections := j.idleConn
        initialized := false
        stats := [] }

/-! Section: StatsRecorder window identity (src/nfork/stats.go)

For the claim about `Read` never returning the window being written,
only the object identities of the two `*Stats` windows matter.  Heap
objects are numeric identifiers; `nextId` is the allocator.  `init`
performs `prev = new(Stats); current = new(Stats)`; `Record` mutates the
current window in place; `Read` returns `prev`; the roller moves
`current` to `prev` and allocates a fresh current. -/

structure RecState where
  nextId : Nat
  current : Nat
  prev : Nat
  deriving Repr, DecidableEq

/-- State right after `StatsRecorder.init`: two fresh windows. -/
def RecState.initial : RecState := { nextId := 2, current := 1, prev := 0 }

/-- The window `Read` returns. -/
def RecState.readWindow (s : RecState) : Nat := s.prev

/-- The window `Record` writes. -/
def RecState.writeWindow (s : RecState) : Nat := s.current

/-- One step of a `StatsRecorder`: a `Record` call (in-place mutation
of the current window), a `Read` call, or one roll of the periodic
driver in `run`. -/
inductive RecStep : RecState → RecState → Prop where
  | record (s : RecState) : RecStep s s
  | read (s : RecState) : RecStep s s
  | roll (s : RecState) :
      RecStep s { nextId := s.nextId + 1, current := s.nextId, prev := s.current }

/-- States a `StatsRecorder` can reach from initialization. -/
inductive RecReachable : RecState → Prop where
  | init : RecReachable RecState.initial
  | step {s t : RecState} : RecReachable s → RecStep s t → RecReachable t

/-! Section: shared lemmas about the embedded operations -/

theorem string_len_zero (s : String) : s.length = 0 ↔ s = "" := by
  cases s with
  | mk data =>
    cases data with
    | nil => simp [String.length]
    | cons c cs => simp [String.length, String.ext_iff]

theorem map_pair_id (l : List (α × β)) : l.map (fun e => (e.1, e.2)) = l := by
  induction l with
  | nil => rfl
  | cons hd tl ih => simp [ih]

theorem copy_Outbound (i : Inbound) : (i.copy).Outbound = i.Outbound :=
  map_pair_id i.Outbound

theorem copy_stats (i : Inbound) : (i.copy).stats = i.stats :=
  map_pair_id i.stats

theorem copy_Active (i : Inbound) : (i.copy).Active = i.Active := rfl

theorem copy_not_initialized (i : Inbound) : (i.copy).initialized = false := rfl

theorem initBody_Outbound (i : Inbound) (c : Nat) :
    ((i.initBody c).1).Outbound = i.Outbound := rfl

theorem initBody_Active (i : Inbound) (c : Nat) :
    ((i.initBody c).1).Active = i.Active := rfl

theorem initBody_stats (i : Inbound) (c : Nat) :
    ((i.initBody c).1).stats = (installRecorders i.stats i.Outbound c).1 := rfl

theorem initOnce_Outbound (i : Inbound) (c : Nat) :
    ((i.initOnce c).1).Outbound = i.Outbound := by
  by_cases h : i.initialized <;> simp [Inbound.initOnce, h, initBody_Outbound]

theorem initOnce_Active (i : Inbound) (c : Nat) :
    ((i.initOnce c).1).Active = i.Active := by
  by_cases h : i.initialized <;> simp [Inbound.initOnce, h, initBody_Active]

theorem initOnce_stats (i : Inbound) (c : Nat) :
    ((i.initOnce c).1).stats =
      if i.initialized then i.stats
      else (installRecorders i.stats i.Outbound c).1 := by
  by_cases h : i.initialized <;> simp [Inbound.initOnce, h, initBody_stats]

theorem installRecorders_find_not_in (out : List (String × String))
    (stats : List (String × Nat)) (c : Nat) (k : String)
    (hk : mapHas out k = false) :
    mapFind (installRecorders stats out c).1 k = mapFind stats k := by
  induction out generalizing stats c with
  | nil => rfl
  | cons hd rest ih =>
    obtain ⟨k0, v0⟩ := hd
    simp only [mapHas, Bool.or_eq_false_iff, decide_eq_false_iff_not] at hk
    obtain ⟨hne, hrest⟩ := hk
    show mapFind (installRecorders (mapSet stats k0 c) rest (c + 1)).1 k = mapFind stats k
    rw [ih (mapSet stats k0 c) (c + 1) hrest, mapFind_set_other stats k0 k c hne]

theorem installRecorders_find_fresh (out : List (String × String))
    (stats : List (String × Nat)) (c : Nat) (k : String)
    (hk : mapHas out k = true) :
    ∃ r, mapFind (installRecorders stats out c).1 k = some r ∧ c ≤ r := by
  induction out generalizing stats c with
  | nil => simp [mapHas] at hk
  | cons hd rest ih =>
    obtain ⟨k0, v0⟩ := hd
    show ∃ r, mapFind (installRecorders (mapSet stats k0 c) rest (c + 1)).1 k = some r ∧ c ≤ r
    by_cases hr : mapHas rest k = true
    · obtain ⟨r, hfind, hle⟩ := ih (mapSet stats k0 c) (c + 1) hr
      exact ⟨r, hfind, Nat.le_of_succ_le hle⟩
    · have hk0 : k0 = k := by
        simp only [mapHas, Bool.or_eq_true, decide_eq_true_eq] at hk
        tauto
      subst hk0
      refine ⟨c, ?_, Nat.le_refl c⟩
      rw [installRecorders_find_not_in rest (mapSet stats k0 c) (c + 1) k0
        (by simpa using hr)]
      exact mapFind_set_self stats k0 c

theorem installRecorders_has (out : List (String × String))
    (stats : List (String × Nat)) (c : Nat) (k : String)
    (hk : mapHas out k = true ∨ mapHas stats k = true) :
    mapHas (installRecorders stats out c).1 k = true := by
  induction out generalizing stats c with
  | nil =>
    rcases hk with h | h
    · simp [mapHas] at h
    · exact h
  | cons hd rest ih =>
    obtain ⟨k0, v0⟩ := hd
    show mapHas (installRecorders (mapSet stats k0 c) rest (c + 1)).1 k = true
    rcases hk with h | h
    · simp only [mapHas, Bool.or_eq_true, decide_eq_true_eq] at h
      rcases h with h | h
      · refine ih (mapSet stats k0 c) (c + 1) (Or.inr ?_)
        rw [mapHas_set]
        simp [h]
      · exact ih (mapSet stats k0 c) (c + 1) (Or.inl h)
    · refine ih (mapSet stats k0 c) (c + 1) (Or.inr ?_)
      rw [mapHas_set]
      simp [h]

theorem mapFind_eq_none_of_not_has (m : List (String × α)) (k : String)
    (h : mapHas m k = false) : mapFind m k = none := by
  induction m with
  | nil => rfl
  | cons hd tl ih =>
    obtain ⟨k', v⟩ := hd
    simp only [mapHas, Bool.or_eq_false_iff, decide_eq_false_iff_not] at h
    simp [mapFind, h.1, ih h.2]

theorem mapDel_set_cancel (m : List (String × α)) (k : String) (v : α)
    (hk : mapHas m k = false) : mapDel (mapSet m k v) k = m := by
  induction m with
  | nil => simp [mapSet, mapDel]
  | cons hd tl ih =>
    obtain ⟨k', v'⟩ := hd
    simp only [mapHas, Bool.or_eq_false_iff, decide_eq_false_iff_not] at hk
    obtain ⟨hne, htl⟩ := hk
    simp [mapSet, mapDel, hne, ih htl]

theorem insertSorted_length (x : Nat) (l : List Nat) :
    (insertSorted x l).length = l.length + 1 := by
  induction l with
  | nil => rfl
  | cons y ys ih => by_cases h : x ≤ y <;> simp [insertSorted, h, ih]

theorem sortNat_length (l : List Nat) : (sortNat l).length = l.length := by
  induction l with
  | nil => rfl
  | cons y ys ih =>
    show (insertSorted y (sortNat ys)).length = ys.length + 1
    rw [insertSorted_length, ih]

theorem rneDiv_close (a b : Nat) (hb : 0 < b) :
    |((rneDiv a b : Nat) : ℚ) - (a : ℚ) / b| ≤ 1 / 2 := by
  have hbq : (0 : ℚ) < (b : ℚ) := by exact_mod_cast hb
  have hmod : b * (a / b) + a % b = a := Nat.div_add_mod a b
  have hcast : (b : ℚ) * ((a / b : Nat) : ℚ) + ((a % b : Nat) : ℚ) = (a : ℚ) := by
    exact_mod_cast hmod
  have hsplit : (a : ℚ) / b = ((a / b : Nat) : ℚ) + ((a % b : Nat) : ℚ) / b := by
    field_simp
    linarith
  have hrb : ((a % b : Nat) : ℚ) / b ≤ 1 := by
    rw [div_le_one hbq]
    exact_mod_cast Nat.le_of_lt (Nat.mod_lt a hb)
  have hrb0 : (0 : ℚ) ≤ ((a % b : Nat) : ℚ) / b := by positivity
  unfold rneDiv
  by_cases h1 : 2 * (a % b) < b
  · have : ((a % b : Nat) : ℚ) / b ≤ 1 / 2 := by
      rw [div_le_div_iff hbq (by norm_num : (0:ℚ) < 2)]
      have : (2 : ℚ) * (a % b : Nat) ≤ b := by exact_mod_cast Nat.le_of_lt h1
      linarith
    rw [if_pos h1, hsplit, abs_le]
    constructor <;> linarith
  · have h1' : b ≤ 2 * (a % b) := Nat.le_of_not_lt h1
    have hge : 1 / 2 ≤ ((a % b : Nat) : ℚ) / b := by
      rw [div_le_div_iff (by norm_num : (0:ℚ) < 2) hbq]
      have : (b : ℚ) ≤ 2 * (a % b : Nat) := by exact_mod_cast h1'
      linarith
    by_cases h2 : b < 2 * (a % b)
    · rw [if_neg h1, if_pos h2, hsplit]
      push_cast
      rw [abs_le]
      constructor <;> linarith
    · rw [if_neg h1, if_neg h2]
      have heq : ((a % b : Nat) : ℚ) / b = 1 / 2 := le_antisymm
        (by
          have hle : 2 * (a % b) ≤ b := Nat.le_of_not_lt h2
          rw [div_le_div_iff hbq (by norm_num : (0:ℚ) < 2)]
          have : (2 : ℚ) * (a % b : Nat) ≤ b := by exact_mod_cast hle
          linarith)
        hge
      by_cases h3 : a / b % 2 = 0
      · rw [if_pos h3, hsplit, heq, abs_le]
        constructor <;> linarith
      · rw [if_neg h3, hsplit, heq]
        push_cast
        rw [abs_le]
        constructor <;> linarith

theorem findEUp_eq (a b : Nat) (hb : 0 < b) :
    ∀ fuel e, b * 2 ^ e ≤ a → a < b * 2 ^ (e + 1) → e ≤ fuel →
      findEUp a b fuel = e := by
  intro fuel
  induction fuel with
  | zero =>
    intro e h1 h2 he
    have : e = 0 := Nat.le_zero.mp he
    simp [findEUp, this]
  | succ f ih =>
    intro e h1 h2 he
    by_cases hc : b * 2 ^ (f + 1) ≤ a
    · have h3 : b * 2 ^ (f + 1) < b * 2 ^ (e + 1) := lt_of_le_of_lt hc h2
      have h4 : (2 : Nat) ^ (f + 1) < 2 ^ (e + 1) := by
        exact lt_of_mul_lt_mul_left h3 (Nat.zero_le b)
      have h5 : f + 1 < e + 1 :=
        (Nat.pow_lt_pow_iff_right (by norm_num)).mp h4
      have : e = f + 1 := by omega
      simp [findEUp, hc, this]
    · have hef : e ≤ f := by
        by_contra hcon
        have : e = f + 1 := by omega
        subst this
        exact hc h1
      simp only [findEUp, if_neg hc]
      exact ih e h1 h2 hef

theorem findK_eq (a b : Nat) :
    ∀ fuel start k, b ≤ a * 2 ^ k → 1 ≤ k → a * 2 ^ (k - 1) < b →
      start ≤ k → k ≤ start + fuel → findK a b fuel start = k := by
  intro fuel
  induction fuel with
  | zero =>
    intro start k _ _ _ hs hf
    have : k = start := by omega
    simp [findK, this]
  | succ f ih =>
    intro start k hk1 hk0 hk2 hs hf
    by_cases hc : b ≤ a * 2 ^ start
    · have : k = start := by
        by_contra hcon
        have hlt : start < k := lt_of_le_of_ne hs (fun h => hcon h.symm)
        have hle : start ≤ k - 1 := by omega
        have hmono : a * 2 ^ start ≤ a * 2 ^ (k - 1) :=
          Nat.mul_le_mul_left a (Nat.pow_le_pow_right (by norm_num) hle)
        exact absurd (lt_of_le_of_lt (le_trans hc hmono) hk2) (lt_irrefl b)
      simp [findK, hc, this]
    · have hlt : start < k := by
        rcases Nat.lt_or_ge start k with h | h
        · exact h
        · have : k = start := by omega
          subst this
          exact absurd hk1 hc
      simp only [findK, if_neg hc]
      exact ih (start + 1) k hk1 hk0 hk2 (by omega) (by omega)

theorem floorLog2_bracket (a b : Nat) (ha : 0 < a) (hb : 0 < b)
    (hup : a ≤ b * 2 ^ 200) (hdown : b ≤ a * 2 ^ 200) :
    (2 : ℚ) ^ (floorLog2 a b) ≤ (a : ℚ) / b ∧
      (a : ℚ) / b < 2 ^ (floorLog2 a b + 1) := by
  have hbq : (0 : ℚ) < (b : ℚ) := by exact_mod_cast hb
  by_cases hba : b ≤ a
  · set e := Nat.findGreatest (fun e => b * 2 ^ e ≤ a) 200 with he
    have hP0 : b * 2 ^ 0 ≤ a := by simpa using hba
    have h1 : b * 2 ^ e ≤ a :=
      Nat.findGreatest_spec (P := fun e => b * 2 ^ e ≤ a) (Nat.zero_le 200) hP0
    have hele : e ≤ 200 := Nat.findGreatest_le 200
    have h2 : a < b * 2 ^ (e + 1) := by
      rcases Nat.lt_or_ge e 200 with hlt | hge
      · have h6 := Nat.findGreatest_is_greatest (P := fun e => b * 2 ^ e ≤ a)
          (Nat.lt_succ_self e) (by omega : e + 1 ≤ 200)
        exact Nat.lt_of_not_le (by simpa using h6)
      · have he200 : e = 200 := by omega
        have hpow : (2 : Nat) ^ 200 < 2 ^ 201 :=
          Nat.pow_lt_pow_right (by norm_num) (by omega)
        have hbb : b * 2 ^ 200 < b * 2 ^ 201 := by
          exact (Nat.mul_lt_mul_left hb).mpr hpow
        rw [he200]
        exact lt_of_le_of_lt hup (by simpa using hbb)
    have hfind : findEUp a b 200 = e := findEUp_eq a b hb 200 e h1 h2 hele
    have hlog : floorLog2 a b = (e : Int) := by
      simp [floorLog2, hba, hfind]
    constructor
    · rw [hlog, zpow_natCast, le_div_iff hbq]
      calc ((2 : ℚ) ^ e) * b = (b * 2 ^ e : Nat) := by push_cast; ring
        _ ≤ (a : ℚ) := by exact_mod_cast h1
    · rw [hlog, div_lt_iff hbq]
      have hcast : ((e : Int) + 1) = ((e + 1 : Nat) : Int) := by push_cast; ring
      rw [hcast, zpow_natCast]
      calc (a : ℚ) < (b * 2 ^ (e + 1) : Nat) := by exact_mod_cast h2
        _ = 2 ^ (e + 1) * b := by push_cast; ring
  · have hab : a < b := Nat.lt_of_not_le hba
    have hex : ∃ k, b ≤ a * 2 ^ k := ⟨200, hdown⟩
    set k := Nat.find hex with hk
    have hk1 : b ≤ a * 2 ^ k := Nat.find_spec hex
    have hk0 : 1 ≤ k := by
      by_contra h
      have hz : k = 0 := by omega
      rw [hz] at hk1
      simp at hk1
      omega
    have hk2 : a * 2 ^ (k - 1) < b := by
      have := Nat.find_min hex (show k - 1 < k by omega)
      omega
    have hfind : findK a b 200 1 = k :=
      findK_eq a b 200 1 k hk1 hk0 hk2 hk0 (by
        have : k ≤ 200 := Nat.find_min' hex hdown
        omega)
    have hlog : floorLog2 a b = -(k : Int) := by
      simp [floorLog2, hba, hfind]
    have h2k : (0 : ℚ) < (2 : ℚ) ^ (k : Nat) := by positivity
    constructor
    · have hzp : (2 : ℚ) ^ (-(k : Int)) = 1 / 2 ^ (k : Nat) := by
        rw [zpow_neg, zpow_natCast, one_div]
      rw [hlog, hzp, div_le_div_iff h2k hbq]
      calc (1 : ℚ) * b = (b : ℚ) := by ring
        _ ≤ ((a * 2 ^ k : Nat) : ℚ) := by exact_mod_cast hk1
        _ = (a : ℚ) * 2 ^ (k : Nat) := by push_cast; ring
    · have hzp : (2 : ℚ) ^ (-(k : Int) + 1) = 2 / 2 ^ (k : Nat) := by
        rw [zpow_add₀ (by norm_num : (2 : ℚ) ≠ 0), zpow_neg, zpow_natCast, zpow_one]
        ring
      rw [hlog, hzp, div_lt_div_iff hbq h2k]
      have hkk : k - 1 + 1 = k := by omega
      have hsplit2 : (2 : ℚ) ^ (k : Nat) = 2 ^ ((k - 1 : Nat)) * 2 := by
        rw [← pow_succ, hkk]
      have hlt : ((a * 2 ^ (k - 1) : Nat) : ℚ) < (b : ℚ) := by exact_mod_cast hk2
      calc (a : ℚ) * 2 ^ (k : Nat) = ((a : ℚ) * 2 ^ ((k - 1 : Nat))) * 2 := by
            rw [hsplit2]; ring
        _ = ((a * 2 ^ (k - 1) : Nat) : ℚ) * 2 := by push_cast; ring
        _ < b * 2 := by linarith
        _ = 2 * b := by ring

theorem scaled_close (m : Nat) (q : ℚ) (s e0 : Int) (hq : 0 < q)
    (hse : s = e0 - 23) (hlow : 2 ^ e0 ≤ q)
    (hclose : |(m : ℚ) - q * 2 ^ (-s)| ≤ 1 / 2) :
    |(m : ℚ) * 2 ^ s - q| ≤ q / 2 ^ 24 := by
  have h2 : (2 : ℚ) ≠ 0 := by norm_num
  have h2s : (0 : ℚ) < 2 ^ s := zpow_pos (by norm_num) s
  have hfac : (m : ℚ) * 2 ^ s - q = ((m : ℚ) - q * 2 ^ (-s)) * 2 ^ s := by
    rw [sub_mul, mul_assoc, ← zpow_add₀ h2, neg_add_cancel, zpow_zero, mul_one]
  rw [hfac, abs_mul, abs_of_pos h2s]
  calc |(m : ℚ) - q * 2 ^ (-s)| * 2 ^ s ≤ (1 / 2) * 2 ^ s :=
        mul_le_mul_of_nonneg_right hclose (le_of_lt h2s)
    _ = 2 ^ (s - 1) := by
        rw [zpow_sub₀ h2, zpow_one]
        ring
    _ = 2 ^ e0 * 2 ^ (-(24 : Int)) := by
        rw [← zpow_add₀ h2]
        congr 1
        omega
    _ ≤ q * 2 ^ (-(24 : Int)) :=
        mul_le_mul_of_nonneg_right hlow (le_of_lt (zpow_pos (by norm_num) _))
    _ = q / 2 ^ 24 := by
        rw [zpow_neg, div_eq_mul_inv]
        norm_num

theorem roundM_close (a b : Nat) (ha : 0 < a) (hb : 0 < b)
    (hup : a ≤ b * 2 ^ 200) (hdown : b ≤ a * 2 ^ 200) :
    |dyadVal (roundM a b) - (a : ℚ) / b| ≤ ((a : ℚ) / b) / 2 ^ 24 := by
  have h2 : (2 : ℚ) ≠ 0 := by norm_num
  have hbq : (0 : ℚ) < (b : ℚ) := by exact_mod_cast hb
  have haq : (0 : ℚ) < (a : ℚ) := by exact_mod_cast ha
  have hq : (0 : ℚ) < (a : ℚ) / b := by positivity
  obtain ⟨hbr1, _⟩ := floorLog2_bracket a b ha hb hup hdown
  unfold roundM
  by_cases hs : 0 ≤ floorLog2 a b - 23
  · rw [if_pos hs]
    set s := floorLog2 a b - 23 with hsdef
    have hts : ((s.toNat : Nat) : Int) = s := Int.toNat_of_nonneg hs
    have hBpos : 0 < b * 2 ^ s.toNat := Nat.mul_pos hb (Nat.two_pow_pos _)
    have hclose := rneDiv_close a (b * 2 ^ s.toNat) hBpos
    have hBval : ((b * 2 ^ s.toNat : Nat) : ℚ) = (b : ℚ) * 2 ^ s := by
      push_cast
      rw [← zpow_natCast (2 : ℚ) s.toNat, hts]
    have hqrel : (a : ℚ) / ((b * 2 ^ s.toNat : Nat) : ℚ) = ((a : ℚ) / b) * 2 ^ (-s) := by
      rw [hBval, zpow_neg, ← div_div, div_eq_mul_inv]
    rw [hqrel] at hclose
    exact scaled_close (rneDiv a (b * 2 ^ s.toNat)) ((a : ℚ) / b) s (floorLog2 a b)
      hq hsdef hbr1 hclose
  · rw [if_neg hs]
    set s := floorLog2 a b - 23 with hsdef
    have hneg : (((-s).toNat : Nat) : Int) = -s := Int.toNat_of_nonneg (by omega)
    have hclose := rneDiv_close (a * 2 ^ (-s).toNat) b hb
    have hAval : ((a * 2 ^ (-s).toNat : Nat) : ℚ) = (a : ℚ) * 2 ^ (-s) := by
      push_cast
      rw [← zpow_natCast (2 : ℚ) (-s).toNat, hneg]
    have hqrel : ((a * 2 ^ (-s).toNat : Nat) : ℚ) / (b : ℚ) = ((a : ℚ) / b) * 2 ^ (-s) := by
      rw [hAval]
      ring
    rw [hqrel] at hclose
    exact scaled_close (rneDiv (a * 2 ^ (-s).toNat) b) ((a : ℚ) / b) s (floorLog2 a b)
      hq hsdef hbr1 hclose

theorem roundM_bounds (a b : Nat) (ha : 0 < a) (hb : 0 < b)
    (hup : a ≤ b * 2 ^ 200) (hdown : b ≤ a * 2 ^ 200) :
    ((a : ℚ) / b) * (1 - 1 / 2 ^ 24) ≤ dyadVal (roundM a b) ∧
      dyadVal (roundM a b) ≤ ((a : ℚ) / b) * (1 + 1 / 2 ^ 24) := by
  have h := roundM_close a b ha hb hup hdown
  rw [abs_le] at h
  have hrw1 : ((a : ℚ) / b) * (1 - 1 / 2 ^ 24) = (a : ℚ) / b - ((a : ℚ) / b) / 2 ^ 24 := by
    ring
  have hrw2 : ((a : ℚ) / b) * (1 + 1 / 2 ^ 24) = (a : ℚ) / b + ((a : ℚ) / b) / 2 ^ 24 := by
    ring
  constructor
  · rw [hrw1]; linarith [h.1]
  · rw [hrw2]; linarith [h.2]

theorem dyadVal_pos_iff (x : Nat × Int) : 0 < dyadVal x ↔ 0 < x.1 := by
  unfold dyadVal
  have h2s : (0 : ℚ) < 2 ^ x.2 := zpow_pos (by norm_num) x.2
  constructor
  · intro h
    by_contra hc
    have : x.1 = 0 := by omega
    rw [this] at h
    simp at h
  · intro h
    have : (0 : ℚ) < (x.1 : ℚ) := by exact_mod_cast h
    positivity

theorem dyadRatio_den_pos (x : Nat × Int) : 0 < (dyadRatio x).2 := by
  unfold dyadRatio
  split_ifs <;> simp [Nat.two_pow_pos]

theorem dyadRatio_num_pos (x : Nat × Int) (h : 0 < x.1) : 0 < (dyadRatio x).1 := by
  unfold dyadRatio
  split_ifs
  · exact Nat.mul_pos h (Nat.two_pow_pos _)
  · exact h

theorem dyadRatio_val (x : Nat × Int) :
    (((dyadRatio x).1 : Nat) : ℚ) / (((dyadRatio x).2 : Nat) : ℚ) = dyadVal x := by
  unfold dyadRatio dyadVal
  split_ifs with hs
  · have hts : ((x.2.toNat : Nat) : Int) = x.2 := Int.toNat_of_nonneg hs
    show ((x.1 * 2 ^ x.2.toNat : Nat) : ℚ) / ((1 : Nat) : ℚ) = (x.1 : ℚ) * 2 ^ x.2
    push_cast
    rw [div_one, ← zpow_natCast (2 : ℚ) x.2.toNat, hts]
  · have hts : (((-x.2).toNat : Nat) : Int) = -x.2 := Int.toNat_of_nonneg (by omega)
    show ((x.1 : Nat) : ℚ) / ((2 ^ (-x.2).toNat : Nat) : ℚ) = (x.1 : ℚ) * 2 ^ x.2
    push_cast
    rw [div_eq_mul_inv, ← zpow_natCast (2 : ℚ) (-x.2).toNat, hts, ← zpow_neg, neg_neg]

theorem dyadFloor_le (x : Nat × Int) : (dyadFloor x : ℚ) ≤ dyadVal x := by
  unfold dyadFloor dyadVal
  split_ifs with hs
  · have hts : ((x.2.toNat : Nat) : Int) = x.2 := Int.toNat_of_nonneg hs
    have : ((x.1 * 2 ^ x.2.toNat : Nat) : ℚ) = (x.1 : ℚ) * 2 ^ x.2 := by
      push_cast
      rw [← zpow_natCast (2 : ℚ) x.2.toNat, hts]
    rw [this]
  · have hts : (((-x.2).toNat : Nat) : Int) = -x.2 := Int.toNat_of_nonneg (by omega)
    calc ((x.1 / 2 ^ (-x.2).toNat : Nat) : ℚ) ≤
          (x.1 : ℚ) / ((2 ^ (-x.2).toNat : Nat) : ℚ) := Nat.cast_div_le
      _ = (x.1 : ℚ) * 2 ^ x.2 := by
          push_cast
          rw [div_eq_mul_inv, ← zpow_natCast (2 : ℚ) (-x.2).toNat, hts, ← zpow_neg,
            neg_neg]

theorem ratio_range_to_nat (a b : Nat) (ha : 0 < a) (hb : 0 < b)
    (h1 : (a : ℚ) / (b : ℚ) ≤ 2 ^ 200) (h2 : (1 : ℚ) / 2 ^ 200 ≤ (a : ℚ) / (b : ℚ)) :
    a ≤ b * 2 ^ 200 ∧ b ≤ a * 2 ^ 200 := by
  have hbq : (0 : ℚ) < (b : ℚ) := by exact_mod_cast hb
  constructor
  · have h3 := (div_le_iff hbq).mp h1
    have h4 : (a : ℚ) ≤ ((b * 2 ^ 200 : Nat) : ℚ) := by push_cast; linarith
    exact_mod_cast h4
  · rw [div_le_div_iff (by positivity) hbq] at h2
    have h4 : (b : ℚ) ≤ ((a * 2 ^ 200 : Nat) : ℚ) := by push_cast; linarith
    exact_mod_cast h4

set_option maxRecDepth 8000 in
set_option maxHeartbeats 2000000 in
theorem f32idx_lt (n p : Nat) (hn1 : 1 ≤ n) (hn2 : n < 2 ^ 63)
    (hp1 : 1 ≤ p) (hp99 : p ≤ 99) : f32idx n p < n := by
  have hnq : (1 : ℚ) ≤ (n : ℚ) := by exact_mod_cast hn1
  have hnq2 : (n : ℚ) < 2 ^ 63 := by exact_mod_cast hn2
  have hpq : (1 : ℚ) ≤ (p : ℚ) := by exact_mod_cast hp1
  have hpq99 : (p : ℚ) ≤ 99 := by exact_mod_cast hp99
  have hnpos : (0 : ℚ) < (n : ℚ) := lt_of_lt_of_le zero_lt_one hnq
  have hppos : (0 : ℚ) < (p : ℚ) := lt_of_lt_of_le zero_lt_one hpq
  unfold f32idx
  dsimp only
  set x1 := roundM n 1 with hx1def
  set r1 := dyadRatio x1 with hr1def
  set x2 := roundM r1.1 (r1.2 * 100) with hx2def
  set r2 := dyadRatio x2 with hr2def
  set xp := roundM p 1 with hxpdef
  set rp := dyadRatio xp with hrpdef
  set x3 := roundM (r2.1 * rp.1) (r2.2 * rp.2) with hx3def
  -- call 1: float32(n)
  have hup1 : n ≤ 1 * 2 ^ 200 := by
    have : (2 : Nat) ^ 63 ≤ 2 ^ 200 := Nat.pow_le_pow_right (by norm_num) (by omega)
    omega
  have hdown1 : (1 : Nat) ≤ n * 2 ^ 200 := Nat.mul_pos (by omega) (Nat.two_pow_pos 200)
  have hb1 := roundM_bounds n 1 (by omega) Nat.one_pos hup1 hdown1
  simp only [Nat.cast_one, div_one] at hb1
  have hv1u : dyadVal x1 ≤ (n : ℚ) * (1 + 1 / 2 ^ 24) := hb1.2
  have hv1l : (n : ℚ) * (1 - 1 / 2 ^ 24) ≤ dyadVal x1 := hb1.1
  have hv1aux : (0 : ℚ) < (n : ℚ) * (1 - 1 / 2 ^ 24) := by nlinarith
  have hv1pos : 0 < dyadVal x1 := lt_of_lt_of_le hv1aux hv1l
  have hm1pos : 0 < x1.1 := (dyadVal_pos_iff x1).mp hv1pos
  have hr1num : 0 < r1.1 := dyadRatio_num_pos x1 hm1pos
  have hr1den : 0 < r1.2 := dyadRatio_den_pos x1
  have hr1val : ((r1.1 : Nat) : ℚ) / ((r1.2 : Nat) : ℚ) = dyadVal x1 := dyadRatio_val x1
  -- call 2: division by 100
  have hden2 : 0 < r1.2 * 100 := Nat.mul_pos hr1den (by norm_num)
  have hq2 : ((r1.1 : Nat) : ℚ) / ((r1.2 * 100 : Nat) : ℚ) = dyadVal x1 / 100 := by
    push_cast
    rw [← div_div]
    push_cast at hr1val
    rw [hr1val]
  have hq2u : dyadVal x1 / 100 ≤ 2 ^ 200 := by nlinarith
  have hq2l : (1 : ℚ) / 2 ^ 200 ≤ dyadVal x1 / 100 := by nlinarith
  have hrange2 := ratio_range_to_nat r1.1 (r1.2 * 100) hr1num hden2
    (by rw [hq2]; exact hq2u) (by rw [hq2]; exact hq2l)
  have hb2 := roundM_bounds r1.1 (r1.2 * 100) hr1num hden2 hrange2.1 hrange2.2
  rw [hq2] at hb2
  have hv2u : dyadVal x2 ≤ (dyadVal x1 / 100) * (1 + 1 / 2 ^ 24) := hb2.2
  have hv2l : (dyadVal x1 / 100) * (1 - 1 / 2 ^ 24) ≤ dyadVal x2 := hb2.1
  have hv2aux : (0 : ℚ) < (dyadVal x1 / 100) * (1 - 1 / 2 ^ 24) := by nlinarith
  have hv2pos : 0 < dyadVal x2 := lt_of_lt_of_le hv2aux hv2l
  have hm2pos : 0 < x2.1 := (dyadVal_pos_iff x2).mp hv2pos
  have hr2num : 0 < r2.1 := dyadRatio_num_pos x2 hm2pos
  have hr2den : 0 < r2.2 := dyadRatio_den_pos x2
  have hr2val : ((r2.1 : Nat) : ℚ) / ((r2.2 : Nat) : ℚ) = dyadVal x2 := dyadRatio_val x2
  -- call p: float32(p)
  have hupp : p ≤ 1 * 2 ^ 200 := by
    have : (99 : Nat) ≤ 2 ^ 200 := by
      calc (99 : Nat) ≤ 2 ^ 7 := by norm_num
        _ ≤ 2 ^ 200 := Nat.pow_le_pow_right (by norm_num) (by omega)
    omega
  have hdownp : (1 : Nat) ≤ p * 2 ^ 200 := Nat.mul_pos (by omega) (Nat.two_pow_pos 200)
  have hbp := roundM_bounds p 1 (by omega) Nat.one_pos hupp hdownp
  simp only [Nat.cast_one, div_one] at hbp
  have hvpu : dyadVal xp ≤ (p : ℚ) * (1 + 1 / 2 ^ 24) := hbp.2
  have hvpl : (p : ℚ) * (1 - 1 / 2 ^ 24) ≤ dyadVal xp := hbp.1
  have hvpaux : (0 : ℚ) < (p : ℚ) * (1 - 1 / 2 ^ 24) := by nlinarith
  have hvppos : 0 < dyadVal xp := lt_of_lt_of_le hvpaux hvpl
  have hmppos : 0 < xp.1 := (dyadVal_pos_iff xp).mp hvppos
  have hrpnum : 0 < rp.1 := dyadRatio_num_pos xp hmppos
  have hrpden : 0 < rp.2 := dyadRatio_den_pos xp
  have hrpval : ((rp.1 : Nat) : ℚ) / ((rp.2 : Nat) : ℚ) = dyadVal xp := dyadRatio_val xp
  -- call 3: the product
  have hnum3 : 0 < r2.1 * rp.1 := Nat.mul_pos hr2num hrpnum
  have hden3 : 0 < r2.2 * rp.2 := Nat.mul_pos hr2den hrpden
  have hq3 : ((r2.1 * rp.1 : Nat) : ℚ) / ((r2.2 * rp.2 : Nat) : ℚ) =
      dyadVal x2 * dyadVal xp := by
    push_cast
    rw [← div_mul_div_comm]
    push_cast at hr2val hrpval
    rw [hr2val, hrpval]
  have hq3u : dyadVal x2 * dyadVal xp ≤ 2 ^ 200 := by nlinarith
  have hq3l : (1 : ℚ) / 2 ^ 200 ≤ dyadVal x2 * dyadVal xp := by nlinarith
  have hrange3 := ratio_range_to_nat (r2.1 * rp.1) (r2.2 * rp.2) hnum3 hden3
    (by rw [hq3]; exact hq3u) (by rw [hq3]; exact hq3l)
  have hb3 := roundM_bounds (r2.1 * rp.1) (r2.2 * rp.2) hnum3 hden3 hrange3.1 hrange3.2
  rw [hq3] at hb3
  have hv3u : dyadVal x3 ≤ (dyadVal x2 * dyadVal xp) * (1 + 1 / 2 ^ 24) := hb3.2
  -- the final strict bound
  have hkey : (99 : ℚ) / 100 * (1 + 1 / 2 ^ 24) ^ 4 < 1 := by norm_num
  have hv3lt : dyadVal x3 < (n : ℚ) := by nlinarith [hv1u, hv2u, hvpu, hv3u, hnpos, hppos,
    hv1pos, hv2pos, hvppos, hpq99, hkey]
  have hfl : (dyadFloor x3 : ℚ) ≤ dyadVal x3 := dyadFloor_le x3
  have : (dyadFloor x3 : ℚ) < (n : ℚ) := lt_of_le_of_lt hfl hv3lt
  exact_mod_cast this

theorem recorder_windows_ordered {s : RecState} (h : RecReachable s) :
    s.prev < s.current ∧ s.current < s.nextId := by
  induction h with
  | init => exact ⟨Nat.zero_lt_one, Nat.one_lt_two⟩
  | step _ hs ih =>
    cases hs with
    | record => exact ih
    | read => exact ih
    | roll => exact ⟨ih.2, Nat.lt_succ_self _⟩

/-! Section: the claims -/

/-- C8: in every state of a StatsRecorder reachable by any sequence of
Record, Read and window-roll steps, the previous window returned by
Read and the current window written by Record are distinct Stats
objects, so Read never returns the window currently being written. -/
theorem c8_read_never_returns_written_window (s : RecState)
    (h : RecReachable s) : RecState.readWindow s ≠ RecState.writeWindow s :=
  Nat.ne_of_lt (recorder_windows_ordered h).1

/-- Witness for C8 at the freshly initialized recorder state. -/
theorem c8_read_never_returns_written_window_witness :
    RecState.readWindow RecState.initial ≠ RecState.writeWindow RecState.initial :=
  c8_read_never_returns_written_window RecState.initial RecReachable.init

/-- C1 (code bug): the first Sample on a fresh Distribution with a
4-slot reservoir stores the value at Items[1], not Items[0] — the code
increments Count before indexing (`dist.Items[dist.Count] = value` after
`dist.Count++`) and compares `Count < len(Items)` instead of
`Count <= len(Items)`, so slot 0 is never prefix-filled, contradicting
the claimed `Items[Count-1] = v` prefix fill. -/
theorem c1_sample_skips_slot_zero :
    Distribution.sample { Items := some [0, 0, 0, 0], Count := 0, max := 0 } 5 0 =
      { Items := some [0, 5, 0, 0], Count := 1, max := 5 } := by decide

/-- C7 (code bug): a descriptor without the optional "timeout" field is
rejected by UnmarshalJSON — the Go code feeds the zero-value empty
string to `time.ParseDuration`, which errors — even though `init` would
have installed the default 1 s timeout (second conjunct) had the
descriptor been accepted. -/
theorem c7_missing_timeout_rejected :
    Inbound.unmarshalJSON
      { name := "web", listen := ":8080", out := [("prod", "localhost:9001")],
        active := "prod", timeout := "", timeoutCode := 0, idleConn := 0 } =
      Except.error "time: invalid duration" ∧
    ((Inbound.initBody
      { Name := "web", Listen := ":8080", Outbound := [("prod", "localhost:9001")],
        Active := "prod", Timeout := 0, TimeoutCode := 0, Client := none,
        IdleConnections := 0, initialized := true, stats := [] } 0).1).Timeout =
      DefaultInboundTimeout := by
  constructor
  · rfl
  · rfl

/-- C4: Validate returns an error exactly when Listen is empty, or the
Outbound map is empty, or Active is empty, or Active is not a key of
Outbound; an empty Name is replaced by Listen before the checks, and
nothing else about the Inbound changes. -/
theorem c4_validate_characterization (i : Inbound) :
    ((i.validate).2 ≠ none ↔
      (i.Listen = "" ∨ i.Outbound = [] ∨ i.Active = "" ∨
        mapHas i.Outbound i.Active = false)) ∧
    (i.validate).1 = { i with Name := if i.Name = "" then i.Listen else i.Name } := by
  unfold Inbound.validate
  by_cases hn : i.Name.length = 0
  · rw [if_pos hn, if_pos ((string_len_zero i.Name).mp hn)]
    constructor
    · dsimp only
      split_ifs with h1 h2 h3 h4 <;>
        simp_all [string_len_zero, List.length_eq_zero, mapLen]
    · dsimp only
      split_ifs <;> rfl
  · rw [if_neg hn, if_neg (fun h => hn ((string_len_zero i.Name).mpr h))]
    constructor
    · dsimp only
      split_ifs with h1 h2 h3 h4 <;>
        simp_all [string_len_zero, List.length_eq_zero, mapLen]
    · dsimp only
      split_ifs <;> rfl

/-- Witness for C4 at a concrete valid Inbound and a concrete invalid
one. -/
theorem c4_validate_characterization_witness :
    (((Inbound.mk "w" ":1" [("a", "u")] "a" 0 0 none 0 false []).validate).2 = none) ∧
    (((Inbound.mk "w" ":1" [("a", "u")] "b" 0 0 none 0 false []).validate).2 ≠ none) := by
  constructor
  · by_contra h
    have := ((c4_validate_characterization
      (Inbound.mk "w" ":1" [("a", "u")] "a" 0 0 none 0 false [])).1).mp h
    simp at this
    exact absurd this (by decide)
  · exact ((c4_validate_characterization
      (Inbound.mk "w" ":1" [("a", "u")] "b" 0 0 none 0 false [])).1).mpr
      (Or.inr (Or.inr (Or.inr (by decide))))

/-- C5 (corrected): AddOutbound(x, a) followed by RemoveOutbound(x)
restores the prior Outbound map — provided x was not already an
outbound and x is not the active name.  (When x already exists, the add
overwrites and the remove then deletes the key outright; when
x == Active, the remove is refused.) -/
theorem c5_add_then_remove_restores (i : Inbound) (c : Nat) (x a : String)
    (hx : mapHas i.Outbound x = false) (hactive : x ≠ i.Active) :
    ((((i.addOutbound c x a).1).removeOutbound x).1).Outbound = i.Outbound ∧
    ((((i.addOutbound c x a).1).removeOutbound x).2).1 = none := by
  have h1 : mapHas (mapSet i.Outbound x a) x = true := by
    rw [mapHas_set]; simp
  unfold Inbound.addOutbound Inbound.removeOutbound
  simp only [h1, Bool.not_true, Bool.false_eq_true, if_false]
  rw [if_neg hactive]
  exact ⟨mapDel_set_cancel i.Outbound x a hx, rfl⟩

/-- Witness for C5: adding then removing a fresh outbound "b" leaves
the singleton Outbound map intact. -/
theorem c5_add_then_remove_restores_witness :
    ((((Inbound.addOutbound
        (Inbound.mk "w" ":1" [("a", "u")] "a" 0 0 none 0 false [("a", 0)])
        1 "b" "v").1).removeOutbound "b").1).Outbound = [("a", "u")] ∧
    ((((Inbound.addOutbound
        (Inbound.mk "w" ":1" [("a", "u")] "a" 0 0 none 0 false [("a", 0)])
        1 "b" "v").1).removeOutbound "b").2).1 = none :=
  c5_add_then_remove_restores
    (Inbound.mk "w" ":1" [("a", "u")] "a" 0 0 none 0 false [("a", 0)])
    1 "b" "v" (by decide) (by decide)

/-- Counterexample for C5 as stated: when x = "b" is already an
outbound, Add("b", w); Remove("b") deletes the key, so the prior key
set {a, b} is not restored. -/
theorem c5_counterexample :
    mapHas (((((Inbound.mk "w" ":1" [("a", "u"), ("b", "v")] "a" 0 0 none 0 false
        [("a", 0), ("b", 1)]).addOutbound 2 "b" "w").1).removeOutbound
        "b").1).Outbound "b" = false ∧
    mapHas ((Inbound.mk "w" ":1" [("a", "u"), ("b", "v")] "a" 0 0 none 0 false
        [("a", 0), ("b", 1)]).Outbound) "b" = true := by decide

/-- C3 (corrected): RemoveOutbound fails and leaves the Inbound
unchanged when the name is unknown or active; otherwise it removes the
name from the Outbound and stats maps — but it closes no StatsRecorder
(the close list is empty; only the older Route.Remove layout closes). -/
theorem c3_remove_outbound (i : Inbound) (x : String) :
    ((mapHas i.Outbound x = false ∨ x = i.Active) →
      (i.removeOutbound x).1 = i ∧ (i.removeOutbound x).2.1 ≠ none) ∧
    (mapHas i.Outbound x = true → x ≠ i.Active →
      i.removeOutbound x =
        ({ i with Outbound := mapDel i.Outbound x, stats := mapDel i.stats x },
          none, ([] : List Nat))) := by
  constructor
  · intro h
    unfold Inbound.removeOutbound
    split_ifs with h1 h2 <;> simp_all
  · intro hhas hact
    unfold Inbound.removeOutbound
    split_ifs with h1 h2 <;> simp_all

/-- Witness for C3 at a concrete failing call (unknown name) and a
concrete successful one. -/
theorem c3_remove_outbound_witness :
    (((Inbound.mk "w" ":1" [("a", "u"), ("b", "v")] "a" 0 0 none 0 false
        [("a", 0), ("b", 1)]).removeOutbound "zz").1 =
      Inbound.mk "w" ":1" [("a", "u"), ("b", "v")] "a" 0 0 none 0 false
        [("a", 0), ("b", 1)]) ∧
    ((Inbound.mk "w" ":1" [("a", "u"), ("b", "v")] "a" 0 0 none 0 false
        [("a", 0), ("b", 1)]).removeOutbound "b" =
      ({ Inbound.mk "w" ":1" [("a", "u"), ("b", "v")] "a" 0 0 none 0 false
          [("a", 0), ("b", 1)] with
          Outbound := mapDel [("a", "u"), ("b", "v")] "b",
          stats := mapDel [("a", 0), ("b", 1)] "b" }, none, ([] : List Nat))) :=
  ⟨((c3_remove_outbound
      (Inbound.mk "w" ":1" [("a", "u"), ("b", "v")] "a" 0 0 none 0 false
        [("a", 0), ("b", 1)]) "zz").1 (Or.inl (by decide))).1,
    (c3_remove_outbound
      (Inbound.mk "w" ":1" [("a", "u"), ("b", "v")] "a" 0 0 none 0 false
        [("a", 0), ("b", 1)]) "b").2 (by decide) (by decide)⟩

/-- Counterexample for C3 as stated: removing "b" succeeds and deletes
its stats entry, yet the recorder (identifier 1) is never closed — the
close list is empty. -/
theorem c3_counterexample :
    ((Inbound.mk "w" ":1" [("a", "u"), ("b", "v")] "a" 0 0 none 0 false
        [("a", 0), ("b", 1)]).removeOutbound "b").2.2 = ([] : List Nat) ∧
    mapFind ((Inbound.mk "w" ":1" [("a", "u"), ("b", "v")] "a" 0 0 none 0 false
        [("a", 0), ("b", 1)]).stats) "b" = some 1 ∧
    ((Inbound.mk "w" ":1" [("a", "u"), ("b", "v")] "a" 0 0 none 0 false
        [("a", 0), ("b", 1)]).removeOutbound "b").2.1 = none := by decide

theorem int64ofUInt64_small (u : Nat) (h : u < 2 ^ 63) :
    int64ofUInt64 u = (u : Int) := by
  unfold int64ofUInt64
  rw [Nat.mod_eq_of_lt (lt_trans h (by norm_num))]
  rw [if_pos h]

theorem percentiles_run (d : Distribution) (xs : List Nat)
    (hxs : d.Items = some xs) (hne : xs.length ≠ 0) (hc2 : d.Count < 2 ^ 63) :
    d.percentiles =
      (match
        (sortNat (xs.take (min d.Count xs.length))).get?
          (f32idx (min d.Count xs.length) 50),
        (sortNat (xs.take (min d.Count xs.length))).get?
          (f32idx (min d.Count xs.length) 90),
        (sortNat (xs.take (min d.Count xs.length))).get?
          (f32idx (min d.Count xs.length) 99) with
       | some a, some b, some c => some (a, b, c, d.max)
       | _, _, _ => none) := by
  unfold Distribution.percentiles
  rw [hxs]
  simp only [Option.getD_some]
  rw [if_neg hne]
  rw [int64ofUInt64_small d.Count hc2]
  have hminInt : (if ((d.Count : Int) > ((xs.length : Nat) : Int))
      then ((xs.length : Nat) : Int) else (d.Count : Int)) =
      ((min d.Count xs.length : Nat) : Int) := by
    rcases Nat.lt_or_ge xs.length d.Count with h | h
    · rw [if_pos (by exact_mod_cast h), Nat.min_eq_right (Nat.le_of_lt h)]
    · rw [if_neg (by exact_mod_cast Nat.not_lt.mpr h), Nat.min_eq_left h]
  rw [hminInt]
  rw [if_neg (by exact_mod_cast Nat.not_lt.mpr (Nat.zero_le _) :
    ¬((min d.Count xs.length : Nat) : Int) < 0)]
  rw [Int.toNat_natCast]

/-- C6 (corrected): Percentiles sorts the populated prefix of length
n = min(Count, |Items|) and returns the elements at the float32-computed
indices int(float32(n)/100*float32(p)) for p = 50, 90, 99, plus the
tracked maximum — these indices can fall one short of floor(n*p/100);
zeros are returned only when the Items slice is empty, and a
Distribution with a nonempty slice but Count = 0 panics on an
out-of-range index instead of returning zeros. -/
theorem c6_percentiles_characterization (d : Distribution) :
    ((d.Items.getD []).length = 0 → d.percentiles = some (0, 0, 0, 0)) ∧
    (∀ xs, d.Items = some xs → xs ≠ [] → d.Count = 0 → d.percentiles = none) ∧
    (∀ xs, d.Items = some xs → xs ≠ [] → 1 ≤ d.Count → d.Count < 2 ^ 63 →
      ∃ a b c,
        (sortNat (xs.take (min d.Count xs.length))).get?
          (f32idx (min d.Count xs.length) 50) = some a ∧
        (sortNat (xs.take (min d.Count xs.length))).get?
          (f32idx (min d.Count xs.length) 90) = some b ∧
        (sortNat (xs.take (min d.Count xs.length))).get?
          (f32idx (min d.Count xs.length) 99) = some c ∧
        d.percentiles = some (a, b, c, d.max)) := by
  refine ⟨?_, ?_, ?_⟩
  · intro h
    unfold Distribution.percentiles
    rw [if_pos h]
  · intro xs hxs hne hc
    have hlen : xs.length ≠ 0 := fun h => hne (List.length_eq_zero.mp h)
    rw [percentiles_run d xs hxs hlen (by rw [hc]; positivity)]
    rw [hc]
    simp [sortNat]
  · intro xs hxs hne hc1 hc2
    have hlen : xs.length ≠ 0 := fun h => hne (List.length_eq_zero.mp h)
    have hlen1 : 1 ≤ xs.length := Nat.one_le_iff_ne_zero.mpr hlen
    set n := min d.Count xs.length with hn
    have hn1 : 1 ≤ n := le_min hc1 hlen1
    have hn2 : n < 2 ^ 63 := lt_of_le_of_lt (Nat.min_le_left _ _) hc2
    have hslen : (sortNat (xs.take n)).length = n := by
      rw [sortNat_length, List.length_take, hn]
      exact Nat.min_eq_left (Nat.min_le_right _ _) ▸ by
        rw [Nat.min_comm d.Count xs.length]
        exact Nat.min_assoc _ _ _ ▸ by simp [Nat.min_self]
    have h50 : f32idx n 50 < (sortNat (xs.take n)).length := by
      rw [hslen]; exact f32idx_lt n 50 hn1 hn2 (by norm_num) (by norm_num)
    have h90 : f32idx n 90 < (sortNat (xs.take n)).length := by
      rw [hslen]; exact f32idx_lt n 90 hn1 hn2 (by norm_num) (by norm_num)
    have h99 : f32idx n 99 < (sortNat (xs.take n)).length := by
      rw [hslen]; exact f32idx_lt n 99 hn1 hn2 (by norm_num) (by norm_num)
    refine ⟨(sortNat (xs.take n)).get ⟨f32idx n 50, h50⟩,
      (sortNat (xs.take n)).get ⟨f32idx n 90, h90⟩,
      (sortNat (xs.take n)).get ⟨f32idx n 99, h99⟩,
      List.get?_eq_get h50, List.get?_eq_get h90, List.get?_eq_get h99, ?_⟩
    rw [percentiles_run d xs hxs hlen hc2, ← hn]
    rw [List.get?_eq_get h50, List.get?_eq_get h90, List.get?_eq_get h99]

/-- Witness for C6 at a two-sample distribution: the populated prefix
[5, 3] sorts to [3, 5] and the float32 indices select (3, 5, 5) with
maximum 9. -/
theorem c6_percentiles_characterization_witness :
    ∃ a b c,
      (sortNat ([5, 3].take (min 2 ([5, 3] : List Nat).length))).get?
        (f32idx (min 2 ([5, 3] : List Nat).length) 50) = some a ∧
      (sortNat ([5, 3].take (min 2 ([5, 3] : List Nat).length))).get?
        (f32idx (min 2 ([5, 3] : List Nat).length) 90) = some b ∧
      (sortNat ([5, 3].take (min 2 ([5, 3] : List Nat).length))).get?
        (f32idx (min 2 ([5, 3] : List Nat).length) 99) = some c ∧
      Distribution.percentiles { Items := some [5, 3], Count := 2, max := 9 } =
        some (a, b, c, 9) :=
  (c6_percentiles_characterization
      { Items := some [5, 3], Count := 2, max := 9 }).2.2
    [5, 3] rfl (by decide) (by decide) (by norm_num)

set_option maxRecDepth 8000 in
/-- Counterexample for C6 as stated: with 106 samples 0..105 the code
returns p50 = 52 (the float32 index int(float32(106)/100*50) = 52),
while the claim's floor(106 * 0.50) = 53 selects 53. -/
theorem c6_counterexample :
    Distribution.percentiles
      { Items := some (List.range 106), Count := 106, max := 105 } =
      some (52, 95, 104, 105) ∧
    (sortNat ((List.range 106).take (min 106 (List.range 106).length))).get?
      (106 * 50 / 100) = some 53 ∧
    (52 : Nat) ≠ 53 := by
  refine ⟨by decide, by decide, by decide⟩

/-- C2: each InboundServer mutation operates on a deep copy of the
published Inbound; when the mutation fails the published Inbound is
untouched, and when it succeeds the mutated copy is published.
(AddOutbound never fails, so its published result is unconditionally
the mutated copy.) -/
theorem c2_copy_on_write_publish (s : InboundServer) (c : Nat) (x a : String) :
    ((s.addOutbound c x a).1).inbound = (((s.inbound.copy).addOutbound c x a).1) ∧
    ((s.removeOutbound x).2 ≠ none → (s.removeOutbound x).1 = s) ∧
    ((s.removeOutbound x).2 = none →
      ((s.removeOutbound x).1).inbound = (((s.inbound.copy).removeOutbound x).1)) ∧
    ((s.activateOutbound x).2 ≠ none → (s.activateOutbound x).1 = s) ∧
    ((s.activateOutbound x).2 = none →
      ((s.activateOutbound x).1).inbound = (((s.inbound.copy).activateOutbound x).1)) := by
  refine ⟨rfl, ?_, ?_, ?_, ?_⟩
  · intro herr
    unfold InboundServer.removeOutbound at herr ⊢
    rcases hrm : (s.inbound.copy).removeOutbound x with ⟨i', err, closed⟩
    rw [hrm] at herr
    cases err with
    | none => simp at herr
    | some e => rfl
  · intro hok
    unfold InboundServer.removeOutbound at hok ⊢
    rcases hrm : (s.inbound.copy).removeOutbound x with ⟨i', err, closed⟩
    rw [hrm] at hok
    cases err with
    | none => rfl
    | some e => simp at hok
  · intro herr
    unfold InboundServer.activateOutbound at herr ⊢
    rcases hac : (s.inbound.copy).activateOutbound x with ⟨i', err⟩
    rw [hac] at herr
    cases err with
    | none => simp at herr
    | some e => rfl
  · intro hok
    unfold InboundServer.activateOutbound at hok ⊢
    rcases hac : (s.inbound.copy).activateOutbound x with ⟨i', err⟩
    rw [hac] at hok
    cases err with
    | none => rfl
    | some e => simp at hok

/-- Witness for C2: a failed remove (unknown outbound) leaves the
published Inbound in place; a successful activate publishes the mutated
copy. -/
theorem c2_copy_on_write_publish_witness :
    ((InboundServer.mk (Inbound.mk "w" ":1" [("a", "u"), ("b", "v")] "a" 0 0 none 0
        true [("a", 0), ("b", 1)])).removeOutbound "zz").1 =
      InboundServer.mk (Inbound.mk "w" ":1" [("a", "u"), ("b", "v")] "a" 0 0 none 0
        true [("a", 0), ("b", 1)]) ∧
    (((InboundServer.mk (Inbound.mk "w" ":1" [("a", "u"), ("b", "v")] "a" 0 0 none 0
        true [("a", 0), ("b", 1)])).activateOutbound "b").1).inbound =
      ((((InboundServer.mk (Inbound.mk "w" ":1" [("a", "u"), ("b", "v")] "a" 0 0 none 0
        true [("a", 0), ("b", 1)])).inbound.copy).activateOutbound "b").1) :=
  ⟨(c2_copy_on_write_publish
      (InboundServer.mk (Inbound.mk "w" ":1" [("a", "u"), ("b", "v")] "a" 0 0 none 0
        true [("a", 0), ("b", 1)])) 0 "zz" "").2.1 (by decide),
    (c2_copy_on_write_publish
      (InboundServer.mk (Inbound.mk "w" ":1" [("a", "u"), ("b", "v")] "a" 0 0 none 0
        true [("a", 0), ("b", 1)])) 0 "b" "").2.2.2.2 (by decide)⟩

/-- C9: the lazy initializer of an Inbound installs a brand-new
StatsRecorder for every key of Outbound; applied to a Copy — whose
stats map shares recorder identifiers with the original and whose
once-guard is reset — it therefore replaces every shared recorder of an
outbound key with a fresh one. -/
theorem c9_copy_reinit_installs_fresh_recorders (i : Inbound) (c : Nat)
    (hold : ∀ k r, mapFind i.stats k = some r → r < c) (k : String)
    (hk : mapHas i.Outbound k = true) :
    ∃ r, mapFind (((i.copy).initOnce c).1).stats k = some r ∧ c ≤ r ∧
      ∀ rOld, mapFind i.stats k = some rOld → rOld ≠ r := by
  have hstats : (((i.copy).initOnce c).1).stats =
      (installRecorders i.stats i.Outbound c).1 := by
    rw [initOnce_stats, copy_not_initialized, copy_stats, copy_Outbound]
    simp
  obtain ⟨r, hfind, hle⟩ := installRecorders_find_fresh i.Outbound i.stats c k hk
  refine ⟨r, by rw [hstats]; exact hfind, hle, ?_⟩
  intro rOld hOld heq
  have := hold k rOld hOld
  omega

/-- Witness for C9: a copied Inbound with shared recorders 0 and 1
receives a fresh recorder (identifier at least 2) for key "a" when its
initializer runs with allocation counter 2. -/
theorem c9_copy_reinit_installs_fresh_recorders_witness :
    ∃ r, mapFind ((((Inbound.mk "w" ":1" [("a", "u"), ("b", "v")] "a" 0 0 none 0
        true [("a", 0), ("b", 1)]).copy).initOnce 2).1).stats "a" = some r ∧
      2 ≤ r ∧
      ∀ rOld, mapFind ((Inbound.mk "w" ":1" [("a", "u"), ("b", "v")] "a" 0 0 none 0
        true [("a", 0), ("b", 1)]).stats) "a" = some rOld → rOld ≠ r :=
  c9_copy_reinit_installs_fresh_recorders
    (Inbound.mk "w" ":1" [("a", "u"), ("b", "v")] "a" 0 0 none 0 true
      [("a", 0), ("b", 1)]) 2
    (by
      intro k r h
      simp only [mapFind] at h
      split_ifs at h <;> simp_all <;> omega)
    "a" (by decide)

/-- C10 (corrected): with a successfully buffered body, ServeHTTP
panics when Active is not a key of Outbound; when Active is a key with
a nonempty address, it forwards to that address, and when the stats map
covers the Outbound keys, event recording cannot panic either.  (The
nonempty-address proviso is forced: an empty active address also takes
the panic branch.)  A failed body read yields the 400 response before
any of this. -/
theorem c10_serve_panic_conditions (i : Inbound) (c : Nat) :
    (i.serveHTTP c false).2.2 = ServeStep.badRequest ∧
    (mapHas i.Outbound i.Active = false →
      (i.serveHTTP c true).2.2 = ServeStep.panicNoActive) ∧
    (∀ addr, mapFind i.Outbound i.Active = some addr → addr ≠ "" →
      (i.serveHTTP c true).2.2 = ServeStep.forwardActive addr) ∧
    ((∀ k, mapHas i.Outbound k = true → mapHas i.stats k = true) →
      ∀ k, mapHas i.Outbound k = true →
        ((i.serveHTTP c true).1).record k = some ()) := by
  have hOut := initOnce_Outbound i c
  have hAct := initOnce_Active i c
  refine ⟨rfl, ?_, ?_, ?_⟩
  · intro h
    show ((i.initOnce c).1).serveDispatch true = ServeStep.panicNoActive
    unfold Inbound.serveDispatch
    rw [hOut, hAct, mapFind_eq_none_of_not_has i.Outbound i.Active h]
    rfl
  · intro addr hfind hne
    show ((i.initOnce c).1).serveDispatch true = ServeStep.forwardActive addr
    unfold Inbound.serveDispatch
    rw [hOut, hAct, hfind]
    have : addr.length ≠ 0 := fun h => hne ((string_len_zero addr).mp h)
    simp [Option.getD, this]
  · intro hsup k hk
    show ((i.initOnce c).1).record k = some ()
    unfold Inbound.record
    have : mapHas (((i.initOnce c).1).stats) k = true := by
      rw [initOnce_stats]
      by_cases hinit : i.initialized
      · simpa [hinit] using hsup k hk
      · simp only [hinit, if_false]
        exact installRecorders_has i.Outbound i.stats c k (Or.inl hk)
    rw [this]
    rfl

/-- Witness for C10: a healthy initialized Inbound forwards to the
active address and records without panicking; one whose Active is
absent panics. -/
theorem c10_serve_panic_conditions_witness :
    ((Inbound.mk "w" ":1" [("a", "h")] "a" 0 0 none 0 true [("a", 0)]).serveHTTP
      0 true).2.2 = ServeStep.forwardActive "h" ∧
    (((Inbound.mk "w" ":1" [("a", "h")] "a" 0 0 none 0 true [("a", 0)]).serveHTTP
      0 true).1).record "a" = some () ∧
    ((Inbound.mk "w" ":1" [("b", "h")] "a" 0 0 none 0 true [("b", 0)]).serveHTTP
      0 true).2.2 = ServeStep.panicNoActive :=
  ⟨(c10_serve_panic_conditions
      (Inbound.mk "w" ":1" [("a", "h")] "a" 0 0 none 0 true [("a", 0)]) 0).2.2.1
      "h" (by decide) (by decide),
    (c10_serve_panic_conditions
      (Inbound.mk "w" ":1" [("a", "h")] "a" 0 0 none 0 true [("a", 0)]) 0).2.2.2
      (by
        intro k hk
        simp only [mapHas, Bool.or_eq_true, decide_eq_true_eq] at hk
        rcases hk with hk | hk
        · subst hk; decide
        · simp [mapHas] at hk)
      "a" (by decide),
    (c10_serve_panic_conditions
      (Inbound.mk "w" ":1" [("b", "h")] "a" 0 0 none 0 true [("b", 0)]) 0).2.1
      (by decide)⟩

/-- Counterexample for C10 as stated: an Inbound whose Active "a" is a
key of Outbound and whose stats map covers the Outbound keys still
panics in ServeHTTP, because the active address is the empty string. -/
theorem c10_counterexample :
    mapHas ((Inbound.mk "w" ":1" [("a", "")] "a" 0 0 none 0 true
        [("a", 0)]).Outbound)
      ((Inbound.mk "w" ":1" [("a", "")] "a" 0 0 none 0 true [("a", 0)]).Active) =
      true ∧
    mapHas ((Inbound.mk "w" ":1" [("a", "")] "a" 0 0 none 0 true
        [("a", 0)]).stats) "a" = true ∧
    ((Inbound.mk "w" ":1" [("a", "")] "a" 0 0 none 0 true [("a", 0)]).serveHTTP
      0 true).2.2 = ServeStep.panicNoActive := by decide

end Nfork
